import Mathlib

/-!
Verification of the brush-stroke evaluation pipeline of
`source/blender/editors/sculpt_paint/sculpt.cc`.

Scalars are modelled as exact rationals (`ℚ`); the C code's `float`
arithmetic is embedded as exact field arithmetic.  Vectors of three
floats (`float3`) are a structure of three rationals.  External
collaborators that are not part of this repository's sources
(the viewport clipping predicate `ED_view3d_clipping_test`, the
ray/AABB distance routine, square roots) are abstracted as function
parameters, so every theorem quantifies over them.
-/

/-- A `float3` vector, embedded with exact rational components. -/
structure Vec3 where
  x : ℚ
  y : ℚ
  z : ℚ
deriving DecidableEq, Repr

/-- Componentwise addition (`add_v3_v3v3`). -/
def Vec3.add (a b : Vec3) : Vec3 := ⟨a.x + b.x, a.y + b.y, a.z + b.z⟩

/-- Componentwise subtraction (`sub_v3_v3v3`). -/
def Vec3.sub (a b : Vec3) : Vec3 := ⟨a.x - b.x, a.y - b.y, a.z - b.z⟩

/-- Component access by axis index 0/1/2 (`v[axis]`). -/
def Vec3.nth (v : Vec3) (i : Fin 3) : ℚ :=
  match i with
  | 0 => v.x
  | 1 => v.y
  | 2 => v.z

/-- Replace the component at axis index 0/1/2 (`v[axis] = value`). -/
def Vec3.setNth (v : Vec3) (i : Fin 3) (q : ℚ) : Vec3 :=
  match i with
  | 0 => ⟨q, v.y, v.z⟩
  | 1 => ⟨v.x, q, v.z⟩
  | 2 => ⟨v.x, v.y, q⟩

/-- Dot product (`dot_v3v3` / `math::dot`). -/
def dot3 (a b : Vec3) : ℚ := a.x * b.x + a.y * b.y + a.z * b.z

/-- Squared distance between two points (`len_squared_v3v3` /
`math::distance_squared`). -/
def len_squared_v3v3 (a b : Vec3) : ℚ :=
  (a.x - b.x) ^ 2 + (a.y - b.y) ^ 2 + (a.z - b.z) ^ 2

/-- Componentwise clamp of a point into a box (`math::clamp(location,
bounds.min, bounds.max)`). -/
def clamp3 (v lo hi : Vec3) : Vec3 :=
  ⟨min (max v.x lo.x) hi.x, min (max v.y lo.y) hi.y, min (max v.z lo.z) hi.z⟩

/-! ## Symmetry iteration validity (`SCULPT_is_symmetry_iteration_valid`)

Translated from sculpt.cc:1177-1180:
`return i == 0 || (symm & i && (symm != 5 || i != 3) && (symm != 6 || !ELEM(i, 3, 5)));`
-/

/-- Embedding of `SCULPT_is_symmetry_iteration_valid(i, symm)` from sculpt.cc:1177. -/
def SCULPT_is_symmetry_iteration_valid (i symm : ℕ) : Bool :=
  i == 0 ||
    (Nat.land symm i != 0 && (symm != 5 || i != 3) && (symm != 6 || !(i == 3 || i == 5)))

/-! ## Hardness remapping -/

/-- Embedding of `sculpt_apply_hardness` from sculpt.cc:2820-2838.  The stroke-cache
fields read by the function (`cache.paint_brush.hardness`,
`cache.radius`) are passed explicitly. -/
def sculpt_apply_hardness (radius hardness input_len : ℚ) : ℚ :=
  let p := input_len / radius
  if p < hardness then 0
  else if hardness = 1 then radius
  else ((p - hardness) / (1 - hardness)) * radius

/-- Embedding of `apply_hardness_to_distances` from sculpt.cc:7135-7158.  The in-place
mutation of the `distances` span is embedded as a map producing the new
span contents; `math::rcp` is exact reciprocal. -/
def apply_hardness_to_distances (radius hardness : ℚ) (distances : List ℚ) : List ℚ :=
  if hardness = 0 then distances
  else if hardness = 1 then distances.map (fun _ => 0)
  else
    let threshold := hardness * radius
    let radius_inv := 1 / radius
    let hardness_inv_rcp := 1 / (1 - hardness)
    distances.map (fun d =>
      if d < threshold then 0 else (d * radius_inv - hardness) * hardness_inv_rcp * radius)

/-! ## Brush test state and clipping -/

/-- Modelled from the spec: `symmetry_flip` is declared in a header that
is not among the sampled sources; per the spec (§4.4 and §8
"mirror bitmask=1 (X only), a vertex at (1,0,0), mirrored point must be
(-1,0,0)"), bit 0/1/2 of the symmetry flag negates the X/Y/Z component. -/
def symmetry_flip (v : Vec3) (symm : ℕ) : Vec3 :=
  ⟨if Nat.land symm 1 ≠ 0 then -v.x else v.x,
   if Nat.land symm 2 ≠ 0 then -v.y else v.y,
   if Nat.land symm 4 ≠ 0 then -v.z else v.z⟩

/-- The fields of `SculptBrushTest` used by the sphere/cube tests and the
clipping helper.  `clip_rv3d` embeds the `RegionView3D *` clip state: the
external predicate `ED_view3d_clipping_test` applied to it is abstracted
as the function carried by the `some` case, and the null pointer as
`none`.  `symm_rot_mat_inv` is the inverse radial-rotation matrix,
abstracted as the affine map it applies. -/
structure SculptBrushTest where
  location : Vec3
  radius_squared : ℚ
  radius : ℚ
  mirror_symmetry_pass : ℕ
  radial_symmetry_pass : ℕ
  symm_rot_mat_inv : Vec3 → Vec3
  clip_rv3d : Option (Vec3 → Bool)
  dist : ℚ

/-- Embedding of `sculpt_brush_test_clipping` from sculpt.cc:1775-1786. -/
def sculpt_brush_test_clipping (test : SculptBrushTest) (co : Vec3) : Bool :=
  match test.clip_rv3d with
  | none => false
  | some clipping_test =>
    let symm_co := symmetry_flip co test.mirror_symmetry_pass
    let symm_co :=
      if test.radial_symmetry_pass ≠ 0 then test.symm_rot_mat_inv symm_co else symm_co
    clipping_test symm_co

/-- Embedding of `SCULPT_brush_test_sphere_sq` from sculpt.cc:1788-1800.  Returns the
boolean result together with the value of `test.dist` after the call
(the write `test.dist = distsq` happens only on success). -/
def SCULPT_brush_test_sphere_sq (test : SculptBrushTest) (co : Vec3) : Bool × ℚ :=
  let distsq := len_squared_v3v3 co test.location
  if distsq > test.radius_squared then (false, test.dist)
  else if sculpt_brush_test_clipping test co then (false, test.dist)
  else (true, distsq)

/-- Embedding of `filter_distances_with_radius` from sculpt.cc:7066-7075, over the
parallel `distances`/`factors` spans. -/
def filter_distances_with_radius (radius : ℚ) (distances : List ℚ) (factors : List ℚ) :
    List ℚ :=
  List.zipWith (fun d f => if d > radius then 0 else f) distances factors

/-- Embedding of `node_in_sphere` from sculpt.cc:2982-2991, with the node's bounding
box passed as `bmin`/`bmax`. -/
def node_in_sphere (bmin bmax location : Vec3) (radius_sq : ℚ) : Bool :=
  let nearest := clamp3 location bmin bmax
  len_squared_v3v3 location nearest < radius_sq

/-- Embedding of `node_in_cylinder` from sculpt.cc:2993-3007.  The external
`dist_squared_ray_to_aabb_v3` routine is abstracted as the parameter
`dist_sq_of_bounds` applied to the node bounds. -/
def node_in_cylinder (dist_sq_of_bounds : Vec3 → Vec3 → ℚ) (bmin bmax : Vec3)
    (radius_sq : ℚ) : Bool :=
  let dist_sq := dist_sq_of_bounds bmin bmax
  decide (dist_sq < radius_sq) || true

/-! ## Cube (square-tip) brush test -/

/-- The inside-the-cube check of `SCULPT_brush_test_cube`
(sculpt.cc:1846): all | local coordinates | at most `side`. -/
def cube_inside_cond (local_co : Vec3) (side : ℚ) : Prop :=
  local_co.x ≤ side ∧ local_co.y ≤ side ∧ local_co.z ≤ side

/-- The corner branch condition of `SCULPT_brush_test_cube`
(sculpt.cc:1850): `min_ff(local_co[0], local_co[1]) > constant_side`. -/
def cube_corner_cond (local_co : Vec3) (constant_side : ℚ) : Prop :=
  min local_co.x local_co.y > constant_side

/-- The edge branch condition of `SCULPT_brush_test_cube`
(sculpt.cc:1857): `max_ff(local_co[0], local_co[1]) > constant_side`. -/
def cube_edge_cond (local_co : Vec3) (constant_side : ℚ) : Prop :=
  max local_co.x local_co.y > constant_side

instance (local_co : Vec3) (side : ℚ) : Decidable (cube_inside_cond local_co side) := by
  unfold cube_inside_cond; infer_instance

instance (local_co : Vec3) (cs : ℚ) : Decidable (cube_corner_cond local_co cs) := by
  unfold cube_corner_cond; infer_instance

instance (local_co : Vec3) (cs : ℚ) : Decidable (cube_edge_cond local_co cs) := by
  unfold cube_edge_cond; infer_instance

/-- Embedding of `SCULPT_brush_test_cube` from sculpt.cc:1820-1866.  The local-space
transform `mul_v3_m4v3(local_co, local, co)` is abstracted as the affine
map `localm`; `len_v2v2` requires a square root, which `ℚ` lacks, so the
2D length routine is abstracted as the parameter `len_v2v2` (the claims
proved about this function do not depend on its value).  Returns the
boolean result and `test.dist` after the call. -/
def SCULPT_brush_test_cube (len_v2v2 : ℚ × ℚ → ℚ × ℚ → ℚ) (test : SculptBrushTest)
    (co : Vec3) (localm : Vec3 → Vec3) (roundness : ℚ) : Bool × ℚ :=
  let side : ℚ := 1
  if sculpt_brush_test_clipping test co then (false, test.dist)
  else
    let lc := localm co
    let local_co : Vec3 := ⟨|lc.x|, |lc.y|, |lc.z|⟩
    let side := side + (1 - side) * roundness
    let hardness := 1 - roundness
    let constant_side := hardness * side
    let falloff_side := roundness * side
    if ¬cube_inside_cond local_co side then (false, test.dist)
    else if cube_corner_cond local_co constant_side then
      (true, len_v2v2 (constant_side, constant_side) (local_co.x, local_co.y) / falloff_side)
    else if cube_edge_cond local_co constant_side then
      (true, (max local_co.x local_co.y - constant_side) / falloff_side)
    else (true, 0)

/-! ## Factor pipeline stages -/

/-- Embedding of `fill_factor_from_hide_and_mask` (mesh variant) from
sculpt.cc:6806-6832.  The optional `.sculpt_mask` / `.hide_vert`
attribute arrays are modelled as optional total functions over vertex
indices. -/
def fill_factor_from_hide_and_mask (mask : Option (ℕ → ℚ)) (hide_vert : Option (ℕ → Bool))
    (verts : List ℕ) : List ℚ :=
  let factors :=
    match mask with
    | some m => verts.map (fun v => 1 - m v)
    | none => verts.map (fun _ => 1)
  match hide_vert with
  | some h => List.zipWith (fun v f => if h v then 0 else f) verts factors
  | none => factors

/-- Embedding of `calc_front_face` (mesh variant) from sculpt.cc:6887-6898. -/
def calc_front_face (view_normal : Vec3) (vert_normals : ℕ → Vec3) (verts : List ℕ)
    (factors : List ℚ) : List ℚ :=
  List.zipWith (fun v f => f * max (dot3 view_normal (vert_normals v)) 0) verts factors

/-- The per-stroke state read by `filter_region_clip_factors`
(sculpt.cc:6958-6984): mirror/radial pass, inverse radial rotation, and
the viewport clip predicate (`none` when `RV3D_CLIPPING_ENABLED` is
false). -/
structure RegionClipState where
  mirror_symmetry_pass : ℕ
  radial_symmetry_pass : ℕ
  symm_rot_mat_inv : Vec3 → Vec3
  clip : Option (Vec3 → Bool)

/-- The point at which `filter_region_clip_factors` evaluates the
viewport clip predicate for a vertex position: the position reflected
through the current mirror pass, then rotated back through the inverse
radial rotation when a radial pass is active (sculpt.cc:6976-6979). -/
def region_clip_point (st : RegionClipState) (p : Vec3) : Vec3 :=
  let symm_co := symmetry_flip p st.mirror_symmetry_pass
  if st.radial_symmetry_pass ≠ 0 then st.symm_rot_mat_inv symm_co else symm_co

/-- Embedding of `filter_region_clip_factors` from sculpt.cc:6958-6984. -/
def filter_region_clip_factors (st : RegionClipState) (positions : ℕ → Vec3)
    (verts : List ℕ) (factors : List ℚ) : List ℚ :=
  match st.clip with
  | none => factors
  | some clipping_test =>
    List.zipWith
      (fun v f => if clipping_test (region_clip_point st (positions v)) then 0 else f)
      verts factors

/-! ## Neighbor gathering -/

/-- Embedding of `blender::bke::mesh::face_find_adjacent_verts`: the two vertices
adjacent to `vert` in the cyclic corner order of a face. -/
def face_find_adjacent_verts (face : List ℕ) (vert : ℕ) : ℕ × ℕ :=
  let n := face.length
  let i := face.indexOf vert
  (face.getD ((i + n - 1) % n) vert, face.getD ((i + 1) % n) vert)

/-- Embedding of `Vector::append_non_duplicates`. -/
def append_non_duplicates (acc : List ℕ) (v : ℕ) : List ℕ :=
  if v ∈ acc then acc else acc ++ [v]

/-- Embedding of `vert_neighbors_get_mesh` from sculpt.cc:788-807.  Faces are
modelled as cyclic vertex lists indexed by face id; the
`vert_to_face` map and the optional `hide_poly` attribute array are
passed as functions. -/
def vert_neighbors_get_mesh (vert : ℕ) (faces : ℕ → List ℕ) (vert_to_face : ℕ → List ℕ)
    (hide_poly : Option (ℕ → Bool)) : List ℕ :=
  (vert_to_face vert).foldl
    (fun acc face_i =>
      if (match hide_poly with | some h => h face_i | none => false) then acc
      else
        let adj := face_find_adjacent_verts (faces face_i) vert
        append_non_duplicates (append_non_duplicates acc adj.1) adj.2)
    []

/-- The per-vertex body of `calc_vert_neighbors_interior` (mesh variant)
from sculpt.cc:7561-7588. -/
def vert_neighbors_interior_mesh (vert : ℕ) (faces : ℕ → List ℕ)
    (vert_to_face : ℕ → List ℕ) (boundary_verts : ℕ → Bool)
    (hide_poly : Option (ℕ → Bool)) : List ℕ :=
  let neighbors := vert_neighbors_get_mesh vert faces vert_to_face hide_poly
  if boundary_verts vert then
    if neighbors.length = 2 then []
    else neighbors.filter (fun v => boundary_verts v)
  else neighbors

/-- Embedding of `calc_vert_neighbors_interior` (mesh variant) from
sculpt.cc:7561-7588, over the span of queried vertices. -/
def calc_vert_neighbors_interior (faces : ℕ → List ℕ) (vert_to_face : ℕ → List ℕ)
    (boundary_verts : ℕ → Bool) (hide_poly : Option (ℕ → Bool)) (verts : List ℕ) :
    List (List ℕ) :=
  verts.map (fun vert => vert_neighbors_interior_mesh vert faces vert_to_face
    boundary_verts hide_poly)

/-- Embedding of `vert_neighbors_get_bmesh` from sculpt.cc:715-727.  A dynamic-mesh
vertex's incident loops are modelled as the list of
(`l->prev->v`, `l->next->v`) vertex-id pairs. -/
def vert_neighbors_get_bmesh (vert : ℕ) (loops : List (ℕ × ℕ)) : List ℕ :=
  loops.foldl
    (fun acc pq => acc ++ ([pq.1, pq.2].filter (fun other => other ≠ vert)))
    []

/-- Embedding of `vert_neighbors_get_interior_bmesh` from sculpt.cc:729-753.
`BM_vert_is_boundary` is abstracted as the `is_boundary` predicate. -/
def vert_neighbors_get_interior_bmesh (vert : ℕ) (loops : List (ℕ × ℕ))
    (is_boundary : ℕ → Bool) : List ℕ :=
  let neighbors := loops.foldl
    (fun acc pq => acc ++ ([pq.1, pq.2].filter (fun other => other ≠ vert)))
    []
  if is_boundary vert then
    if neighbors.length = 2 then []
    else neighbors.filter (fun v => is_boundary v)
  else neighbors

/-! ## Symmetry / radial / tile pass enumeration

`do_symmetrical_brush_actions` (sculpt.cc:4274-4308) walks mirror
combinations `0..symm`, and per valid combination runs `do_tiled`
(sculpt.cc:4173-4236) with `radial_symmetry_pass = 0`, then
`do_radial_symmetry` (sculpt.cc:4238-4257) for axes X, Y and Z.  The
embedding records, in invocation order, the pass descriptor under which
the brush-action callback is invoked.  The number of extra tile
repetitions computed by `do_tiled` from the bounding box, step and the
pass's brush location is abstracted as the function `tiles` of the pass
combination (the location is a deterministic function of the
combination, recomputed by `SCULPT_cache_calc_brushdata_symm`). -/

/-- One brush-action invocation: the mirror combination, the radial axis
(0 for the base `do_tiled` call of a mirror pass, 1/2/3 for the X/Y/Z
`do_radial_symmetry` children), `cache->radial_symmetry_pass` and
`cache->tile_pass`. -/
structure SymPass where
  mirror : ℕ
  axis : ℕ
  radial : ℕ
  tile : ℕ
deriving DecidableEq, Repr

/-- Embedding of `do_tiled` (sculpt.cc:4173-4236): the un-tiled position
(`tile_pass = 0`) first, then one invocation per remaining tile with
`tile_pass` incremented (the tile at the original location is skipped). -/
def do_tiled (m a r : ℕ) (tile_count : ℕ) : List SymPass :=
  ⟨m, a, r, 0⟩ :: (List.range tile_count).map (fun k => ⟨m, a, r, k + 1⟩)

/-- Embedding of `do_radial_symmetry` (sculpt.cc:4238-4257) for axis `a` (1/2/3):
`for (i = 1; i < radial_count[a]; i++)` runs `do_tiled` with
`radial_symmetry_pass = i`. -/
def do_radial_symmetry (m a : ℕ) (radial_count : ℕ → ℕ) (tiles : ℕ → ℕ → ℕ → ℕ) :
    List SymPass :=
  (List.range (radial_count a - 1)).flatMap
    (fun k => do_tiled m a (k + 1) (tiles m a (k + 1)))

/-- The body of the mirror loop of `do_symmetrical_brush_actions`
(sculpt.cc:4297-4306) for one valid mirror combination `m`. -/
def symm_block (m : ℕ) (radial_count : ℕ → ℕ) (tiles : ℕ → ℕ → ℕ → ℕ) : List SymPass :=
  do_tiled m 0 0 (tiles m 0 0) ++
    do_radial_symmetry m 1 radial_count tiles ++
    do_radial_symmetry m 2 radial_count tiles ++
    do_radial_symmetry m 3 radial_count tiles

/-- The mirror combinations enumerated by the loop
`for (i = 0; i <= symm; i++)` of `do_symmetrical_brush_actions`
(sculpt.cc:4293-4296), after the validity filter. -/
def valid_mirrors (symm : ℕ) : List ℕ :=
  (List.range (symm + 1)).filter (fun i => SCULPT_is_symmetry_iteration_valid i symm)

/-- Embedding of `do_symmetrical_brush_actions` (sculpt.cc:4274-4308): the sequence
of brush-action invocations produced for one input step. -/
def do_symmetrical_brush_actions (symm : ℕ) (radial_count : ℕ → ℕ)
    (tiles : ℕ → ℕ → ℕ → ℕ) : List SymPass :=
  (valid_mirrors symm).flatMap (fun m => symm_block m radial_count tiles)

/-! ## Mirror clipping of translations -/

/-- The per-axis, per-vertex update of `clip_and_lock_translations`
(sculpt.cc:7281-7321).  The `cache->clip_mirror_mtx` matrix and the
inverse the function computes from it (`math::invert`) are abstracted as
the affine maps `mirror` and `mirror_inverse`; `lock` is
`sd.flags & (SCULPT_LOCK_X << axis)` and `clip` is
`cache->flag & (CLIP_X << axis)`. -/
def clip_axis_update (lock clip : Bool) (mirror mirror_inverse : Vec3 → Vec3)
    (tolerance : ℚ) (axis : Fin 3) (position translation : Vec3) : Vec3 :=
  if lock then translation.setNth axis 0
  else if !clip then translation
  else
    let co_mirror := mirror position
    if |co_mirror.nth axis| > tolerance then translation
    else
      let co_mirror := co_mirror.setNth axis 0
      let co_local := mirror_inverse co_mirror
      translation.setNth axis (co_local.nth axis - position.nth axis)

/-- Embedding of `clip_and_lock_translations` from sculpt.cc:7323-7360 (the variant
without a `verts` index span; the indexed variant at 7281-7321 performs
the same per-vertex update).  The three axis iterations each rewrite
only their own translation component from the unchanged `positions`, so
the loop is embedded as a fold over the axes of a pointwise update. -/
def clip_and_lock_translations (lock clip : Fin 3 → Bool)
    (mirror mirror_inverse : Vec3 → Vec3) (tolerance : Fin 3 → ℚ)
    (positions translations : List Vec3) : List Vec3 :=
  ([0, 1, 2] : List (Fin 3)).foldl
    (fun trs axis =>
      List.zipWith
        (fun p t => clip_axis_update (lock axis) (clip axis) mirror mirror_inverse
          (tolerance axis) axis p t)
        positions trs)
    translations

/-- Modelled from the spec: the intended mirror clipping (spec §4.6
step 2) computes the clamped coordinate from the *target*
(post-translation) position — "transforming the *target* position into
mirror-space, zeroing the axis, and transforming back".  This is the
spec's reference semantics against which the source's
`clip_and_lock_translations` is compared. -/
def clip_axis_update_spec (lock clip : Bool) (mirror mirror_inverse : Vec3 → Vec3)
    (tolerance : ℚ) (axis : Fin 3) (position translation : Vec3) : Vec3 :=
  if lock then translation.setNth axis 0
  else if !clip then translation
  else
    let target := position.add translation
    let co_mirror := mirror target
    if |co_mirror.nth axis| > tolerance then translation
    else
      let co_mirror := co_mirror.setNth axis 0
      let co_local := mirror_inverse co_mirror
      translation.setNth axis (co_local.nth axis - position.nth axis)

/-! ## Theorems -/

/-- C9: `node_in_cylinder` returns true for every node, every radius and
every ray — the computed ray-to-bounding-box distance never affects the
result (the distance check is disabled by `|| true`), so tube-falloff
node gathering never rejects a node on distance grounds. -/
theorem node_in_cylinder_always_true
    (dist_sq_of_bounds : Vec3 → Vec3 → ℚ) (bmin bmax : Vec3) (radius_sq : ℚ) :
    node_in_cylinder dist_sq_of_bounds bmin bmax radius_sq = true := by
  simp [node_in_cylinder]

/-- C2 counterexample: the claim states that with hardness 1 the scalar
`sculpt_apply_hardness` yields 0 for every distance `d ≤ r`; at
`radius = 2`, `hardness = 1`, `d = 2` (so `d ≤ r`) the function returns
the radius 2, not 0. -/
theorem sculpt_apply_hardness_one_at_radius :
    sculpt_apply_hardness 2 1 2 = 2 ∧ (2 : ℚ) ≤ 2 ∧ (2 : ℚ) ≠ 0 := by
  refine ⟨?_, le_refl _, by norm_num⟩
  norm_num [sculpt_apply_hardness]

/-- C2 (amended): for radius `r > 0` and raw distance `d ≥ 0`: with
hardness 0 both remaps are no-ops; with hardness `h ∈ (0, 1)` both remaps
yield 0 when `d < h*r` and `((d/r - h)/(1 - h))*r` otherwise (in
particular `d = 1`, `r = 2`, `h = 1/2` yields 0); with hardness 1 the
scalar yields 0 for every `d < r` but returns the radius at `d = r`,
while the array remap yields 0 for every entry. -/
theorem hardness_remap_characterization :
    (∀ radius d : ℚ, 0 < radius → 0 ≤ d → sculpt_apply_hardness radius 0 d = d) ∧
    (∀ radius hardness d : ℚ, 0 < radius → 0 < hardness → hardness < 1 →
      (d < hardness * radius → sculpt_apply_hardness radius hardness d = 0) ∧
      (hardness * radius ≤ d →
        sculpt_apply_hardness radius hardness d =
          ((d / radius - hardness) / (1 - hardness)) * radius)) ∧
    (∀ radius d : ℚ, 0 < radius → 0 ≤ d → d < radius →
      sculpt_apply_hardness radius 1 d = 0) ∧
    sculpt_apply_hardness 2 1 2 = 2 ∧
    sculpt_apply_hardness 2 (1 / 2) 1 = 0 ∧
    (∀ radius : ℚ, ∀ ds : List ℚ, apply_hardness_to_distances radius 0 ds = ds) ∧
    (∀ radius : ℚ, ∀ ds : List ℚ,
      apply_hardness_to_distances radius 1 ds = ds.map (fun _ => 0)) ∧
    (∀ radius hardness : ℚ, ∀ ds : List ℚ, 0 < radius → 0 < hardness → hardness < 1 →
      apply_hardness_to_distances radius hardness ds =
        ds.map (fun d =>
          if d < hardness * radius then 0 else ((d / radius - hardness) / (1 - hardness)) * radius)) := by
  refine ⟨?_, ?_, ?_, ?_, ?_, ?_, ?_, ?_⟩
  · intro radius d hr hd
    have hp : ¬(d / radius < 0) := not_lt.mpr (div_nonneg hd hr.le)
    simp only [sculpt_apply_hardness, hp, if_false, sub_zero]
    norm_num
    exact div_mul_cancel₀ d (ne_of_gt hr)
  · intro radius hardness d hr h0 h1
    constructor
    · intro hlt
      have : d / radius < hardness := (div_lt_iff₀ hr).mpr (by linarith [hlt])
      simp [sculpt_apply_hardness, this]
    · intro hge
      have hnlt : ¬(d / radius < hardness) := not_lt.mpr ((le_div_iff₀ hr).mpr (by linarith))
      have hne : hardness ≠ 1 := ne_of_lt h1
      simp [sculpt_apply_hardness, hnlt, hne]
  · intro radius d hr hd hlt
    have : d / radius < 1 := (div_lt_one hr).mpr hlt
    simp [sculpt_apply_hardness, this]
  · norm_num [sculpt_apply_hardness]
  · norm_num [sculpt_apply_hardness]
  · intro radius ds
    simp [apply_hardness_to_distances]
  · intro radius ds
    norm_num [apply_hardness_to_distances]
  · intro radius hardness ds hr h0 h1
    have h0' : hardness ≠ 0 := ne_of_gt h0
    have h1' : hardness ≠ 1 := ne_of_lt h1
    simp only [apply_hardness_to_distances, h0', h1', if_false]
    refine List.map_congr_left ?_
    intro d _
    by_cases hd : d < hardness * radius
    · simp [hd]
    · simp only [hd, if_false]
      ring

/-- Witness for `hardness_remap_characterization`: concrete
instantiations of its hypothesis-bearing conjuncts. -/
theorem hardness_remap_characterization_witness :
    sculpt_apply_hardness 2 0 3 = 3 ∧ sculpt_apply_hardness 4 (1 / 2) 1 = 0 ∧
      sculpt_apply_hardness 3 1 2 = 0 ∧
      apply_hardness_to_distances 2 (1 / 2) [1, 3] =
        [1, 3].map (fun d => if d < (1 / 2 : ℚ) * 2 then 0 else ((d / 2 - 1 / 2) / (1 - 1 / 2)) * 2) :=
  ⟨hardness_remap_characterization.1 2 3 (by norm_num) (by norm_num),
   (hardness_remap_characterization.2.1 4 (1 / 2) 1 (by norm_num) (by norm_num)
      (by norm_num)).1 (by norm_num),
   hardness_remap_characterization.2.2.1 3 2 (by norm_num) (by norm_num) (by norm_num),
   hardness_remap_characterization.2.2.2.2.2.2.2 2 (1 / 2) [1, 3] (by norm_num)
      (by norm_num) (by norm_num)⟩

/-- C6 counterexample: the claim states `node_in_sphere` accepts a node
whose nearest bounding-box point is exactly at squared distance
`radius_sq`; for the box `[0,1]³`, query location `(2,0,0)` and
`radius_sq = 1` the nearest point is `(1,0,0)` at squared distance
exactly 1, yet the node is rejected (strict `<`). -/
theorem node_in_sphere_rejects_boundary :
    len_squared_v3v3 ⟨2, 0, 0⟩ (clamp3 ⟨2, 0, 0⟩ ⟨0, 0, 0⟩ ⟨1, 1, 1⟩) = 1 ∧
      node_in_sphere ⟨0, 0, 0⟩ ⟨1, 1, 1⟩ ⟨2, 0, 0⟩ 1 = false := by
  constructor
  · norm_num [len_squared_v3v3, clamp3]
  · norm_num [node_in_sphere, len_squared_v3v3, clamp3]

/-- C6 (amended): equality at the threshold resolves to the "inside"
branch for `SCULPT_brush_test_sphere_sq` (squared distance equal to
`radius_squared` passes, assuming the clip test does not reject) and for
`filter_distances_with_radius` (distance equal to `radius` leaves the
factor unchanged), but `node_in_sphere` uses strict `<` and rejects a
node whose nearest bounding-box point is exactly at squared distance
`radius_sq`. -/
theorem threshold_equality_resolution :
    (∀ (test : SculptBrushTest) (co : Vec3),
      len_squared_v3v3 co test.location = test.radius_squared →
      sculpt_brush_test_clipping test co = false →
      SCULPT_brush_test_sphere_sq test co = (true, test.radius_squared)) ∧
    (∀ (radius : ℚ) (ds fs : List ℚ) (i : ℕ), i < ds.length → i < fs.length →
      ds.getD i 0 = radius →
      (filter_distances_with_radius radius ds fs).getD i 0 = fs.getD i 0) ∧
    (∀ (bmin bmax location : Vec3) (radius_sq : ℚ),
      len_squared_v3v3 location (clamp3 location bmin bmax) = radius_sq →
      node_in_sphere bmin bmax location radius_sq = false) := by
  refine ⟨?_, ?_, ?_⟩
  · intro test co hdist hclip
    simp [SCULPT_brush_test_sphere_sq, hdist, hclip]
  · intro radius ds fs i hd hf hval
    have hlen : i < (filter_distances_with_radius radius ds fs).length := by
      simp [filter_distances_with_radius, List.length_zipWith]
      omega
    rw [List.getD_eq_getElem _ _ hlen, List.getD_eq_getElem _ _ hf]
    rw [List.getD_eq_getElem _ _ hd] at hval
    simp only [filter_distances_with_radius, List.getElem_zipWith]
    simp [hval]
  · intro bmin bmax location radius_sq heq
    simp [node_in_sphere, heq]

/-- Witness for `threshold_equality_resolution`: a sphere test exactly at
the radius, a distance filter exactly at the radius, and a node exactly
at the radius. -/
theorem threshold_equality_resolution_witness :
    SCULPT_brush_test_sphere_sq
        ⟨⟨0, 0, 0⟩, 1, 1, 0, 0, id, none, 0⟩ ⟨1, 0, 0⟩ = (true, 1) ∧
      (filter_distances_with_radius 2 [2] [7]).getD 0 0 = ([7] : List ℚ).getD 0 0 ∧
      node_in_sphere ⟨0, 0, 0⟩ ⟨1, 1, 1⟩ ⟨2, 0, 0⟩ 1 = false :=
  ⟨threshold_equality_resolution.1 ⟨⟨0, 0, 0⟩, 1, 1, 0, 0, id, none, 0⟩ ⟨1, 0, 0⟩
      (by norm_num [len_squared_v3v3]) (by simp [sculpt_brush_test_clipping]),
   threshold_equality_resolution.2.1 2 [2] [7] 0 (by norm_num) (by norm_num) (by norm_num),
   threshold_equality_resolution.2.2 ⟨0, 0, 0⟩ ⟨1, 1, 1⟩ ⟨2, 0, 0⟩ 1
      (by norm_num [len_squared_v3v3, clamp3])⟩

/-- C1 counterexample: the claim states the set of mirror combinations
accepted by `SCULPT_is_symmetry_iteration_valid(i, 7)` is exactly
`{0, 1, 2, 4}`; combination 3 is accepted (`7 & 3 ≠ 0`, and the
exclusions only fire for `symm = 5` or `symm = 6`). -/
theorem symmetry_iteration_three_valid_for_seven :
    SCULPT_is_symmetry_iteration_valid 3 7 = true ∧ (3 : ℕ) ∉ ([0, 1, 2, 4] : List ℕ) := by
  decide

/-- All passes generated by `do_tiled` carry the mirror/axis/radial
combination it was called with. -/
theorem mem_do_tiled_fields {p : SymPass} {m a r T : ℕ} (h : p ∈ do_tiled m a r T) :
    p.mirror = m ∧ p.axis = a ∧ p.radial = r := by
  simp only [do_tiled, List.mem_cons, List.mem_map, List.mem_range] at h
  rcases h with h | ⟨k, _, h⟩ <;> subst h <;> exact ⟨rfl, rfl, rfl⟩

/-- All passes generated by `do_radial_symmetry` for axis `a` carry
mirror `m`, axis `a` and a radial index in `[1, radial_count a)`. -/
theorem mem_do_radial_fields {p : SymPass} {m a : ℕ} {radial_count : ℕ → ℕ}
    {tiles : ℕ → ℕ → ℕ → ℕ} (h : p ∈ do_radial_symmetry m a radial_count tiles) :
    p.mirror = m ∧ p.axis = a ∧ 1 ≤ p.radial ∧ p.radial < radial_count a := by
  simp only [do_radial_symmetry, List.mem_flatMap, List.mem_range] at h
  obtain ⟨k, hk, hmem⟩ := h
  obtain ⟨h1, h2, h3⟩ := mem_do_tiled_fields hmem
  exact ⟨h1, h2, by omega, by omega⟩

/-- All passes of a `symm_block` carry its mirror combination, and their
axis/radial indices are either the base pass shape (`axis = 0`,
`radial = 0`) or a radial pass shape (`axis ∈ {1,2,3}`, `radial ≥ 1`). -/
theorem mem_symm_block_fields {p : SymPass} {m : ℕ} {radial_count : ℕ → ℕ}
    {tiles : ℕ → ℕ → ℕ → ℕ} (h : p ∈ symm_block m radial_count tiles) :
    p.mirror = m ∧
      ((p.axis = 0 ∧ p.radial = 0) ∨ (1 ≤ p.axis ∧ p.axis ≤ 3 ∧ 1 ≤ p.radial)) := by
  simp only [symm_block, List.mem_append] at h
  rcases h with ((h | h) | h) | h
  · obtain ⟨h1, h2, h3⟩ := mem_do_tiled_fields h
    exact ⟨h1, Or.inl ⟨h2, h3⟩⟩
  · obtain ⟨h1, h2, h3, _⟩ := mem_do_radial_fields h
    exact ⟨h1, Or.inr ⟨by omega, by omega, h3⟩⟩
  · obtain ⟨h1, h2, h3, _⟩ := mem_do_radial_fields h
    exact ⟨h1, Or.inr ⟨by omega, by omega, h3⟩⟩
  · obtain ⟨h1, h2, h3, _⟩ := mem_do_radial_fields h
    exact ⟨h1, Or.inr ⟨by omega, by omega, h3⟩⟩

/-- Every pass of `do_symmetrical_brush_actions` has a mirror
combination drawn from `valid_mirrors symm`. -/
theorem mem_actions_mirror {p : SymPass} {symm : ℕ} {radial_count : ℕ → ℕ}
    {tiles : ℕ → ℕ → ℕ → ℕ} (h : p ∈ do_symmetrical_brush_actions symm radial_count tiles) :
    p.mirror ∈ valid_mirrors symm := by
  simp only [do_symmetrical_brush_actions, List.mem_flatMap] at h
  obtain ⟨m, hm, hmem⟩ := h
  rw [(mem_symm_block_fields hmem).1]
  exact hm

/-- C1 (amended): for symmetry bitmask 7 every mirror combination
`0..7` is accepted by `SCULPT_is_symmetry_iteration_valid` (the special
exclusions fire only for bitmasks 5 and 6), and hence the set of mirror
passes enumerated by `do_symmetrical_brush_actions` is exactly
`{0, 1, 2, 3, 4, 5, 6, 7}`. -/
theorem symmetry_seven_enumerates_all_mirrors :
    valid_mirrors 7 = [0, 1, 2, 3, 4, 5, 6, 7] ∧
      ∀ (radial_count : ℕ → ℕ) (tiles : ℕ → ℕ → ℕ → ℕ) (m : ℕ),
        (∃ p ∈ do_symmetrical_brush_actions 7 radial_count tiles, p.mirror = m) ↔
          m ∈ ([0, 1, 2, 3, 4, 5, 6, 7] : List ℕ) := by
  have hv : valid_mirrors 7 = [0, 1, 2, 3, 4, 5, 6, 7] := by decide
  refine ⟨hv, ?_⟩
  intro radial_count tiles m
  constructor
  · rintro ⟨p, hp, rfl⟩
    rw [← hv]
    exact mem_actions_mirror hp
  · intro hm
    refine ⟨⟨m, 0, 0, 0⟩, ?_, rfl⟩
    simp only [do_symmetrical_brush_actions, List.mem_flatMap]
    refine ⟨m, by rw [hv]; exact hm, ?_⟩
    simp [symm_block, do_tiled]

/-- Witness for `symmetry_seven_enumerates_all_mirrors`: mirror
combination 3 is enumerated for bitmask 7 with trivial radial counts and
no tiling. -/
theorem symmetry_seven_enumerates_all_mirrors_witness :
    ∃ p ∈ do_symmetrical_brush_actions 7 (fun _ => 1) (fun _ _ _ => 0), p.mirror = 3 :=
  (symmetry_seven_enumerates_all_mirrors.2 (fun _ => 1) (fun _ _ _ => 0) 3).mpr (by decide)

/-- C10: with `roundness = 0` (so `falloff_side = 0`), every point of
`SCULPT_brush_test_cube` that passes the inside-the-cube check (all
absolute local coordinates at most `side = 1`) fails both the corner
condition and the edge condition (each compares against
`constant_side`, which equals `side` when roundness is 0), so the
flat-interior branch is taken, `test.dist` is set to 0, and the two
divisions by `falloff_side` are unreachable. -/
theorem cube_roundness_zero_flat
    (len_v2v2 : ℚ × ℚ → ℚ × ℚ → ℚ) (test : SculptBrushTest) (co : Vec3)
    (localm : Vec3 → Vec3)
    (hclip : sculpt_brush_test_clipping test co = false)
    (hin : cube_inside_cond ⟨|(localm co).x|, |(localm co).y|, |(localm co).z|⟩ 1) :
    ¬cube_corner_cond ⟨|(localm co).x|, |(localm co).y|, |(localm co).z|⟩
        ((1 - 0) * (1 + (1 - 1) * 0)) ∧
      ¬cube_edge_cond ⟨|(localm co).x|, |(localm co).y|, |(localm co).z|⟩
        ((1 - 0) * (1 + (1 - 1) * 0)) ∧
      SCULPT_brush_test_cube len_v2v2 test co localm 0 = (true, 0) := by
  obtain ⟨hx, hy, hz⟩ := hin
  have hcs : ((1 : ℚ) - 0) * (1 + (1 - 1) * 0) = 1 := by norm_num
  have hcorner : ¬cube_corner_cond ⟨|(localm co).x|, |(localm co).y|, |(localm co).z|⟩
      ((1 - 0) * (1 + (1 - 1) * 0)) := by
    rw [hcs]
    simp only [cube_corner_cond, not_lt]
    exact le_trans (min_le_left _ _) hx
  have hedge : ¬cube_edge_cond ⟨|(localm co).x|, |(localm co).y|, |(localm co).z|⟩
      ((1 - 0) * (1 + (1 - 1) * 0)) := by
    rw [hcs]
    simp only [cube_edge_cond, not_lt]
    exact max_le hx hy
  refine ⟨hcorner, hedge, ?_⟩
  have hside : (1 : ℚ) + (1 - 1) * 0 = 1 := by norm_num
  have hin' : cube_inside_cond ⟨|(localm co).x|, |(localm co).y|, |(localm co).z|⟩
      (1 + (1 - 1) * 0) := by
    rw [hside]; exact ⟨hx, hy, hz⟩
  simp only [SCULPT_brush_test_cube, hclip, Bool.false_eq_true, if_false, hin',
    not_true, hcorner, hedge, if_true]

/-- Witness for `cube_roundness_zero_flat`: a point strictly inside the
unit cube with roundness 0 lands in the flat-interior branch with
distance 0. -/
theorem cube_roundness_zero_flat_witness :
    SCULPT_brush_test_cube (fun _ _ => 37) ⟨⟨0, 0, 0⟩, 1, 1, 0, 0, id, none, 5⟩
        ⟨1 / 2, -1 / 2, 1⟩ id 0 = (true, 0) :=
  (cube_roundness_zero_flat (fun _ _ => 37) ⟨⟨0, 0, 0⟩, 1, 1, 0, 0, id, none, 5⟩
      ⟨1 / 2, -1 / 2, 1⟩ id (by simp [sculpt_brush_test_clipping])
      (by norm_num [cube_inside_cond, abs_le])).2.2

/-- C4: the viewport clip-plane rejection is always evaluated on the
point reflected through the current mirror pass (rotated back through
the inverse radial rotation when a radial pass is active), never on the
original un-mirrored coordinate: `sculpt_brush_test_clipping` and
`filter_region_clip_factors` both feed the transformed point to the
clip predicate, `symmetry_flip` sends `(1,0,0)` to `(-1,0,0)` under
mirror bitmask 1, and a clip predicate rejecting `x < 0` fires for the
vertex `(1,0,0)` during the X-mirror pass even though the original
coordinate would pass. -/
theorem clip_test_uses_mirrored_point :
    (∀ (test : SculptBrushTest) (f : Vec3 → Bool) (co : Vec3),
      test.clip_rv3d = some f →
      sculpt_brush_test_clipping test co =
        f (if test.radial_symmetry_pass ≠ 0 then
             test.symm_rot_mat_inv (symmetry_flip co test.mirror_symmetry_pass)
           else symmetry_flip co test.mirror_symmetry_pass)) ∧
    (∀ (st : RegionClipState) (f : Vec3 → Bool) (positions : ℕ → Vec3)
        (verts : List ℕ) (factors : List ℚ) (i : ℕ),
      st.clip = some f → i < verts.length → i < factors.length →
      (filter_region_clip_factors st positions verts factors).getD i 0 =
        if f (region_clip_point st (positions (verts.getD i 0))) then 0
        else factors.getD i 0) ∧
    symmetry_flip ⟨1, 0, 0⟩ 1 = ⟨-1, 0, 0⟩ ∧
    (∀ rot : Vec3 → Vec3,
      sculpt_brush_test_clipping
          ⟨⟨0, 0, 0⟩, 0, 0, 1, 0, rot, some (fun v => decide (v.x < 0)), 0⟩ ⟨1, 0, 0⟩ =
        true ∧
      (fun v : Vec3 => decide (v.x < 0)) ⟨1, 0, 0⟩ = false) := by
  refine ⟨?_, ?_, ?_, ?_⟩
  · intro test f co h
    simp [sculpt_brush_test_clipping, h]
  · intro st f positions verts factors i h hv hf
    have hlen : i < (filter_region_clip_factors st positions verts factors).length := by
      simp [filter_region_clip_factors, h, List.length_zipWith]
      omega
    rw [List.getD_eq_getElem _ _ hlen, List.getD_eq_getElem _ _ hf,
      List.getD_eq_getElem _ _ hv]
    simp only [filter_region_clip_factors, h] at hlen ⊢
    simp [List.getElem_zipWith]
  · have h1 : Nat.land 1 1 ≠ 0 := by decide
    have h2 : Nat.land 1 2 = 0 := by decide
    have h4 : Nat.land 1 4 = 0 := by decide
    simp [symmetry_flip, h1, h2, h4]
  · intro rot
    have h1 : Nat.land 1 1 ≠ 0 := by decide
    have h2 : Nat.land 1 2 = 0 := by decide
    have h4 : Nat.land 1 4 = 0 := by decide
    constructor
    · norm_num [sculpt_brush_test_clipping, symmetry_flip, h1, h2, h4]
    · norm_num

/-- Witness for `clip_test_uses_mirrored_point`: its factor-filter
conjunct instantiated on one vertex at `(1,0,0)` during the X-mirror
pass with a clip predicate rejecting `x < 0`. -/
theorem clip_test_uses_mirrored_point_witness :
    (filter_region_clip_factors ⟨1, 0, id, some (fun v => decide (v.x < 0))⟩
        (fun _ => ⟨1, 0, 0⟩) [0] [1]).getD 0 0 =
      if (fun v : Vec3 => decide (v.x < 0))
          (region_clip_point ⟨1, 0, id, some (fun v => decide (v.x < 0))⟩ ⟨1, 0, 0⟩) then 0
      else ([1] : List ℚ).getD 0 0 :=
  clip_test_uses_mirrored_point.2.1 ⟨1, 0, id, some (fun v => decide (v.x < 0))⟩
    (fun v => decide (v.x < 0)) (fun _ => ⟨1, 0, 0⟩) [0] [1] 0 rfl (by norm_num)
    (by norm_num)

/-- C5: for the interior-neighbors operation (plain-mesh and
dynamic-mesh backends), a boundary vertex with exactly 2 neighbors gets
an empty neighbor set (geometric-corner policy), a boundary vertex with
any other neighbor count gets its neighbor set with all non-boundary
neighbors removed, and a non-boundary vertex gets its full neighbor
set. -/
theorem interior_neighbors_policy :
    (∀ (faces : ℕ → List ℕ) (vert_to_face : ℕ → List ℕ) (boundary_verts : ℕ → Bool)
        (hide_poly : Option (ℕ → Bool)) (verts : List ℕ) (i : ℕ), i < verts.length →
      (calc_vert_neighbors_interior faces vert_to_face boundary_verts hide_poly
          verts).getD i [] =
        (let vert := verts.getD i 0
         let neighbors := vert_neighbors_get_mesh vert faces vert_to_face hide_poly
         if boundary_verts vert then
           if neighbors.length = 2 then []
           else neighbors.filter (fun v => boundary_verts v)
         else neighbors)) ∧
    (∀ (vert : ℕ) (loops : List (ℕ × ℕ)) (is_boundary : ℕ → Bool),
      (is_boundary vert = true →
        ((vert_neighbors_get_bmesh vert loops).length = 2 →
          vert_neighbors_get_interior_bmesh vert loops is_boundary = []) ∧
        ((vert_neighbors_get_bmesh vert loops).length ≠ 2 →
          vert_neighbors_get_interior_bmesh vert loops is_boundary =
            (vert_neighbors_get_bmesh vert loops).filter (fun v => is_boundary v))) ∧
      (is_boundary vert = false →
        vert_neighbors_get_interior_bmesh vert loops is_boundary =
          vert_neighbors_get_bmesh vert loops)) := by
  constructor
  · intro faces vert_to_face boundary_verts hide_poly verts i hi
    have hlen : i <
        (calc_vert_neighbors_interior faces vert_to_face boundary_verts hide_poly
          verts).length := by
      simpa [calc_vert_neighbors_interior] using hi
    rw [List.getD_eq_getElem _ _ hlen, List.getD_eq_getElem _ _ hi]
    simp only [calc_vert_neighbors_interior, List.getElem_map,
      vert_neighbors_interior_mesh]
  · intro vert loops is_boundary
    have key : vert_neighbors_get_interior_bmesh vert loops is_boundary =
        (if is_boundary vert then
           if (vert_neighbors_get_bmesh vert loops).length = 2 then []
           else (vert_neighbors_get_bmesh vert loops).filter (fun v => is_boundary v)
         else vert_neighbors_get_bmesh vert loops) := rfl
    refine ⟨fun hb => ⟨fun h2 => ?_, fun hn2 => ?_⟩, fun hb => ?_⟩
    · rw [key]
      simp [hb, h2]
    · rw [key]
      simp [hb, hn2]
    · rw [key]
      simp [hb]

/-- Witness for `interior_neighbors_policy`: vertex 0 of a single square
face (a boundary corner with exactly 2 neighbors) receives an empty
interior-neighbor set, while the same query with all vertices
non-boundary returns the full neighbor set [3, 1]. -/
theorem interior_neighbors_policy_witness :
    (calc_vert_neighbors_interior (fun _ => [0, 1, 2, 3]) (fun _ => [0])
        (fun _ => true) none [0]).getD 0 [] =
      (let vert := ([0] : List ℕ).getD 0 0
       let neighbors := vert_neighbors_get_mesh vert (fun _ => [0, 1, 2, 3])
         (fun _ => [0]) none
       if (fun _ : ℕ => true) vert then
         if neighbors.length = 2 then []
         else neighbors.filter (fun _ => (true : Bool))
       else neighbors) ∧
      vert_neighbors_get_interior_bmesh 0 [(3, 1)] (fun _ => false) =
        vert_neighbors_get_bmesh 0 [(3, 1)] :=
  ⟨interior_neighbors_policy.1 (fun _ => [0, 1, 2, 3]) (fun _ => [0]) (fun _ => true)
      none [0] 0 (by norm_num),
   ((interior_neighbors_policy.2 0 [(3, 1)] (fun _ => false)).2 rfl)⟩

/-- C3: `clip_and_lock_translations` computes the clamped coordinate by
transforming the vertex's *pre-translation* position into mirror space
(the translations are never read by the clip computation), not the
target (post-translation) position that the spec requires.  With the
mirror matrix swapping X and Y (a mirror plane not axis-aligned with
the object frame), position `(1,2,0)`, translation `(1/2,1/2,0)`, clip
enabled on X with tolerance 10: the code forces the X translation to 0
(post-translation X coordinate 1), while the spec's target-based rule
keeps the translation `(1/2,1/2,0)` (post-translation X coordinate
3/2). -/
theorem clip_translation_uses_pre_translation_position :
    clip_and_lock_translations (fun _ => false) (fun a => decide (a = 0))
        (fun v => ⟨v.y, v.x, v.z⟩) (fun v => ⟨v.y, v.x, v.z⟩) (fun _ => 10)
        [⟨1, 2, 0⟩] [⟨1 / 2, 1 / 2, 0⟩] = [⟨0, 1 / 2, 0⟩] ∧
      clip_axis_update_spec false true (fun v => ⟨v.y, v.x, v.z⟩)
        (fun v => ⟨v.y, v.x, v.z⟩) 10 0 ⟨1, 2, 0⟩ ⟨1 / 2, 1 / 2, 0⟩ = ⟨1 / 2, 1 / 2, 0⟩ ∧
      (⟨0, 1 / 2, 0⟩ : Vec3) ≠ ⟨1 / 2, 1 / 2, 0⟩ := by
  refine ⟨?_, ?_, ?_⟩
  · norm_num [clip_and_lock_translations, clip_axis_update, Vec3.nth, Vec3.setNth]
  · norm_num [clip_axis_update_spec, Vec3.nth, Vec3.setNth, Vec3.add]
  · intro h
    have := congrArg Vec3.x h
    norm_num at this

/-- Cauchy–Schwarz for the 3-component dot product: the dot product of
two unit-length vectors is at most 1. -/
theorem dot3_le_one {a b : Vec3} (ha : dot3 a a = 1) (hb : dot3 b b = 1) :
    dot3 a b ≤ 1 := by
  simp only [dot3] at ha hb ⊢
  nlinarith [sq_nonneg (a.x - b.x), sq_nonneg (a.y - b.y), sq_nonneg (a.z - b.z)]

/-- The visibility/mask seed stage produces one factor per queried
vertex. -/
theorem length_fill_factor (mask : Option (ℕ → ℚ)) (hide_vert : Option (ℕ → Bool))
    (verts : List ℕ) :
    (fill_factor_from_hide_and_mask mask hide_vert verts).length = verts.length := by
  cases mask <;> cases hide_vert <;>
    simp [fill_factor_from_hide_and_mask, List.length_zipWith]

/-- C8: for unit-length view and vertex normals and a mask attribute
bounded by 1, composing the front-face stage, the distance-falloff
radius cutoff and the region-clip stage after the base visibility/mask
seed never yields a factor above its value immediately after the seed
stage: each stage multiplies by a value in `[0, 1]` or zeroes the
factor. -/
theorem factor_pipeline_monotone
    (mask : Option (ℕ → ℚ)) (hide_vert : Option (ℕ → Bool)) (view_normal : Vec3)
    (vert_normals : ℕ → Vec3) (radius : ℚ) (distances : List ℚ)
    (st : RegionClipState) (positions : ℕ → Vec3) (verts : List ℕ)
    (hmask : ∀ mfn, mask = some mfn → ∀ v, mfn v ≤ 1)
    (hview : dot3 view_normal view_normal = 1)
    (hnorm : ∀ v, dot3 (vert_normals v) (vert_normals v) = 1)
    (hlen : distances.length = verts.length)
    (i : ℕ) (hi : i < verts.length) :
    (filter_region_clip_factors st positions verts
        (filter_distances_with_radius radius distances
          (calc_front_face view_normal vert_normals verts
            (fill_factor_from_hide_and_mask mask hide_vert verts)))).getD i 0 ≤
      (fill_factor_from_hide_and_mask mask hide_vert verts).getD i 0 := by
  have hseedlen := length_fill_factor mask hide_vert verts
  have hsi : i < (fill_factor_from_hide_and_mask mask hide_vert verts).length := by
    omega
  have hseed_nn : 0 ≤ (fill_factor_from_hide_and_mask mask hide_vert verts)[i] := by
    rcases mask with _ | m <;> rcases hide_vert with _ | h <;>
      simp only [fill_factor_from_hide_and_mask, List.getElem_zipWith, List.getElem_map]
    · norm_num
    · split <;> norm_num
    · have := hmask m rfl (verts[i])
      linarith
    · have := hmask m rfl (verts[i])
      split <;> linarith
  set seed := fill_factor_from_hide_and_mask mask hide_vert verts with hseed_def
  have hmax_le : max (dot3 view_normal (vert_normals (verts[i]))) 0 ≤ 1 :=
    max_le (dot3_le_one hview (hnorm _)) zero_le_one
  set front := calc_front_face view_normal vert_normals verts seed with hfront_def
  have hfrontlen : front.length = verts.length := by
    simp [hfront_def, calc_front_face, List.length_zipWith, hseedlen]
  have hfi : i < front.length := by omega
  have hfront_eq : front[i] = seed[i] * max (dot3 view_normal (vert_normals verts[i])) 0 := by
    simp [hfront_def, calc_front_face, List.getElem_zipWith]
  have hfront_le : front[i] ≤ seed[i] := by
    rw [hfront_eq]
    exact mul_le_of_le_one_right hseed_nn hmax_le
  have hfront_nn : 0 ≤ front[i] := by
    rw [hfront_eq]
    exact mul_nonneg hseed_nn (le_max_right _ _)
  set filt := filter_distances_with_radius radius distances front with hfilt_def
  have hfiltlen : filt.length = verts.length := by
    simp [hfilt_def, filter_distances_with_radius, List.length_zipWith, hfrontlen, hlen]
  have hfli : i < filt.length := by omega
  have hdi : i < distances.length := by omega
  have hfilt_eq : filt[i] = if distances[i] > radius then 0 else front[i] := by
    simp [hfilt_def, filter_distances_with_radius, List.getElem_zipWith]
  have hfilt_le : filt[i] ≤ seed[i] := by
    rw [hfilt_eq]
    split
    · exact hseed_nn
    · exact hfront_le
  have hgoal : (filter_region_clip_factors st positions verts filt).getD i 0 ≤ seed[i] := by
    rcases hclip : st.clip with _ | f
    · rw [show filter_region_clip_factors st positions verts filt = filt by
        simp [filter_region_clip_factors, hclip]]
      rw [List.getD_eq_getElem _ _ hfli]
      exact hfilt_le
    · have hfin : i < (filter_region_clip_factors st positions verts filt).length := by
        simp [filter_region_clip_factors, hclip, List.length_zipWith]
        omega
      rw [List.getD_eq_getElem _ _ hfin]
      simp only [filter_region_clip_factors, hclip, List.getElem_zipWith]
      split
      · exact hseed_nn
      · exact hfilt_le
  rw [List.getD_eq_getElem _ _ hsi]
  exact hgoal

/-- Witness for `factor_pipeline_monotone`: a fully visible unmasked
vertex with unit normals, in radius and unclipped. -/
theorem factor_pipeline_monotone_witness :
    (filter_region_clip_factors ⟨0, 0, id, none⟩ (fun _ => ⟨0, 0, 0⟩) [7]
        (filter_distances_with_radius 1 [0]
          (calc_front_face ⟨1, 0, 0⟩ (fun _ => ⟨1, 0, 0⟩) [7]
            (fill_factor_from_hide_and_mask none none [7])))).getD 0 0 ≤
      (fill_factor_from_hide_and_mask none none [7]).getD 0 0 :=
  factor_pipeline_monotone none none ⟨1, 0, 0⟩ (fun _ => ⟨1, 0, 0⟩) 1 [0]
    ⟨0, 0, id, none⟩ (fun _ => ⟨0, 0, 0⟩) [7]
    (fun mfn h => by cases h) (by norm_num [dot3]) (fun v => by norm_num [dot3])
    rfl 0 (by norm_num)

/-- Strict lexicographic order on pass descriptors in enumeration
order: mirror combination, then radial axis, then radial index, then
tile index. -/
def passLt (p q : SymPass) : Prop :=
  p.mirror < q.mirror ∨ (p.mirror = q.mirror ∧ (p.axis < q.axis ∨ (p.axis = q.axis ∧
    (p.radial < q.radial ∨ (p.radial = q.radial ∧ p.tile < q.tile)))))

/-- Embedding of `passLt` is irreflexive. -/
theorem passLt_irrefl (p : SymPass) : ¬passLt p p := by
  simp [passLt]

/-- The passes of one `do_tiled` call are strictly ordered: the
un-tiled pass first, then tiles in increasing `tile_pass` order. -/
theorem pairwise_do_tiled (m a r T : ℕ) : (do_tiled m a r T).Pairwise passLt := by
  unfold do_tiled
  refine List.Pairwise.cons ?_ ?_
  · intro q hq
    simp only [List.mem_map, List.mem_range] at hq
    obtain ⟨k, _, rfl⟩ := hq
    exact Or.inr ⟨rfl, Or.inr ⟨rfl, Or.inr ⟨rfl, Nat.succ_pos k⟩⟩⟩
  · rw [List.pairwise_map]
    exact (List.pairwise_lt_range T).imp
      (fun h => Or.inr ⟨rfl, Or.inr ⟨rfl, Or.inr ⟨rfl, Nat.succ_lt_succ h⟩⟩⟩)

/-- The passes of one `do_radial_symmetry` call are strictly ordered:
radial indices increase, and within each index the tiles of its
`do_tiled` call are ordered. -/
theorem pairwise_do_radial (m a : ℕ) (radial_count : ℕ → ℕ) (tiles : ℕ → ℕ → ℕ → ℕ) :
    (do_radial_symmetry m a radial_count tiles).Pairwise passLt := by
  unfold do_radial_symmetry
  rw [List.flatMap_def, List.pairwise_flatten]
  constructor
  · intro l hl
    simp only [List.mem_map, List.mem_range] at hl
    obtain ⟨k, _, rfl⟩ := hl
    exact pairwise_do_tiled m a (k + 1) (tiles m a (k + 1))
  · rw [List.pairwise_map]
    refine (List.pairwise_lt_range _).imp ?_
    intro k k' hkk' p hp q hq
    obtain ⟨hp1, hp2, hp3⟩ := mem_do_tiled_fields hp
    obtain ⟨hq1, hq2, hq3⟩ := mem_do_tiled_fields hq
    exact Or.inr ⟨by omega, Or.inr ⟨by omega, Or.inl (by omega)⟩⟩

/-- The passes of one `symm_block` are strictly ordered: the base
`do_tiled` call (axis 0, radial 0) first, then the X, Y and Z radial
children in axis order. -/
theorem pairwise_symm_block (m : ℕ) (radial_count : ℕ → ℕ) (tiles : ℕ → ℕ → ℕ → ℕ) :
    (symm_block m radial_count tiles).Pairwise passLt := by
  have cross : ∀ (a₁ a₂ : ℕ) (p q : SymPass), p.mirror = m → q.mirror = m →
      p.axis = a₁ → q.axis = a₂ → a₁ < a₂ → passLt p q := by
    intro a₁ a₂ p q h1 h2 h3 h4 h5
    exact Or.inr ⟨by omega, Or.inl (by omega)⟩
  unfold symm_block
  rw [List.pairwise_append]
  refine ⟨?_, pairwise_do_radial m 3 radial_count tiles, ?_⟩
  · rw [List.pairwise_append]
    refine ⟨?_, pairwise_do_radial m 2 radial_count tiles, ?_⟩
    · rw [List.pairwise_append]
      refine ⟨pairwise_do_tiled m 0 0 (tiles m 0 0),
        pairwise_do_radial m 1 radial_count tiles, ?_⟩
      intro p hp q hq
      obtain ⟨hp1, hp2, _⟩ := mem_do_tiled_fields hp
      obtain ⟨hq1, hq2, hq3, _⟩ := mem_do_radial_fields hq
      exact cross 0 1 p q hp1 hq1 hp2 hq2 (by omega)
    · intro p hp q hq
      obtain ⟨hq1, hq2, hq3, _⟩ := mem_do_radial_fields hq
      rcases List.mem_append.mp hp with h | h
      · obtain ⟨hp1, hp2, _⟩ := mem_do_tiled_fields h
        exact cross 0 2 p q hp1 hq1 hp2 hq2 (by omega)
      · obtain ⟨hp1, hp2, _, _⟩ := mem_do_radial_fields h
        exact cross 1 2 p q hp1 hq1 hp2 hq2 (by omega)
  · intro p hp q hq
    obtain ⟨hq1, hq2, hq3, _⟩ := mem_do_radial_fields hq
    rcases List.mem_append.mp hp with h | h
    · rcases List.mem_append.mp h with h' | h'
      · obtain ⟨hp1, hp2, _⟩ := mem_do_tiled_fields h'
        exact cross 0 3 p q hp1 hq1 hp2 hq2 (by omega)
      · obtain ⟨hp1, hp2, _, _⟩ := mem_do_radial_fields h'
        exact cross 1 3 p q hp1 hq1 hp2 hq2 (by omega)
    · obtain ⟨hp1, hp2, _, _⟩ := mem_do_radial_fields h
      exact cross 2 3 p q hp1 hq1 hp2 hq2 (by omega)

/-- The full pass sequence of `do_symmetrical_brush_actions` is
strictly ordered by `passLt`. -/
theorem pairwise_actions (symm : ℕ) (radial_count : ℕ → ℕ) (tiles : ℕ → ℕ → ℕ → ℕ) :
    (do_symmetrical_brush_actions symm radial_count tiles).Pairwise passLt := by
  unfold do_symmetrical_brush_actions
  rw [List.flatMap_def, List.pairwise_flatten]
  constructor
  · intro l hl
    obtain ⟨mm, _, rfl⟩ := List.mem_map.mp hl
    exact pairwise_symm_block mm radial_count tiles
  · rw [List.pairwise_map]
    have hpm : (valid_mirrors symm).Pairwise (· < ·) :=
      List.Pairwise.sublist (List.filter_sublist _) (List.pairwise_lt_range _)
    refine hpm.imp ?_
    intro m m' hlt p hp q hq
    have h1 := (mem_symm_block_fields hp).1
    have h2 := (mem_symm_block_fields hq).1
    exact Or.inl (by omega)

/-- The zero-tile pass of any enumerated mirror/axis/radial combination
is itself enumerated. -/
theorem zero_tile_mem {p : SymPass} {symm : ℕ} {radial_count : ℕ → ℕ}
    {tiles : ℕ → ℕ → ℕ → ℕ}
    (h : p ∈ do_symmetrical_brush_actions symm radial_count tiles) :
    (⟨p.mirror, p.axis, p.radial, 0⟩ : SymPass) ∈
      do_symmetrical_brush_actions symm radial_count tiles := by
  have zt : ∀ (m a r T : ℕ), p ∈ do_tiled m a r T →
      (⟨p.mirror, p.axis, p.radial, 0⟩ : SymPass) ∈ do_tiled m a r T := by
    intro m a r T hp
    obtain ⟨h1, h2, h3⟩ := mem_do_tiled_fields hp
    rw [h1, h2, h3]
    exact List.mem_cons_self _ _
  simp only [do_symmetrical_brush_actions, List.mem_flatMap] at h ⊢
  obtain ⟨m, hm, hmem⟩ := h
  refine ⟨m, hm, ?_⟩
  simp only [symm_block, List.mem_append] at hmem ⊢
  rcases hmem with ((h' | h') | h') | h'
  · exact Or.inl (Or.inl (Or.inl (zt _ _ _ _ h')))
  · simp only [do_radial_symmetry, List.mem_flatMap, List.mem_range] at h' ⊢
    obtain ⟨k, hk, hmem'⟩ := h'
    exact Or.inl (Or.inl (Or.inr ⟨k, hk, zt _ _ _ _ hmem'⟩))
  · simp only [do_radial_symmetry, List.mem_flatMap, List.mem_range] at h' ⊢
    obtain ⟨k, hk, hmem'⟩ := h'
    exact Or.inl (Or.inr ⟨k, hk, zt _ _ _ _ hmem'⟩)
  · simp only [do_radial_symmetry, List.mem_flatMap, List.mem_range] at h' ⊢
    obtain ⟨k, hk, hmem'⟩ := h'
    exact Or.inr ⟨k, hk, zt _ _ _ _ hmem'⟩

/-- A `passLt`-sorted list whose elements are all equal has at most one
element. -/
theorem length_le_one_of_pairwise_all_eq (l : List SymPass) (c : SymPass)
    (hp : l.Pairwise passLt) (hall : ∀ x ∈ l, x = c) : l.length ≤ 1 := by
  match l, hp with
  | [], _ => simp
  | [x], _ => simp
  | x :: y :: t, hp =>
    exfalso
    have hxy : passLt x y := (List.pairwise_cons.mp hp).1 y (List.mem_cons_self _ _)
    have hx := hall x (List.mem_cons_self _ _)
    have hy := hall y (List.mem_cons.mpr (Or.inr (List.mem_cons_self _ _)))
    rw [hx, hy] at hxy
    exact passLt_irrefl c hxy

/-- C7: in the brush-action invocation sequence of one input step,
(1) within every mirror/axis/radial combination every un-tiled pass
(`tile_pass = 0`) precedes every tiled repeat of that combination,
(2) every enumerated combination contains its un-tiled pass exactly
once, and (3) for every mirror combination, the zero-rotation passes
(`radial_symmetry_pass = 0`) precede all of that combination's radial
passes. -/
theorem symmetry_pass_ordering (symm : ℕ) (radial_count : ℕ → ℕ)
    (tiles : ℕ → ℕ → ℕ → ℕ) :
    (∀ i j (hi : i < (do_symmetrical_brush_actions symm radial_count tiles).length)
        (hj : j < (do_symmetrical_brush_actions symm radial_count tiles).length),
      ((do_symmetrical_brush_actions symm radial_count tiles)[i]).mirror =
          ((do_symmetrical_brush_actions symm radial_count tiles)[j]).mirror →
        ((do_symmetrical_brush_actions symm radial_count tiles)[i]).axis =
          ((do_symmetrical_brush_actions symm radial_count tiles)[j]).axis →
        ((do_symmetrical_brush_actions symm radial_count tiles)[i]).radial =
          ((do_symmetrical_brush_actions symm radial_count tiles)[j]).radial →
        ((do_symmetrical_brush_actions symm radial_count tiles)[i]).tile = 0 →
        ((do_symmetrical_brush_actions symm radial_count tiles)[j]).tile ≠ 0 →
        i < j) ∧
      (∀ m a r : ℕ,
        (∃ t, (⟨m, a, r, t⟩ : SymPass) ∈ do_symmetrical_brush_actions symm radial_count tiles) →
        (do_symmetrical_brush_actions symm radial_count tiles).countP
            (fun p => p.mirror == m && p.axis == a && p.radial == r && p.tile == 0) = 1) ∧
      (∀ i j (hi : i < (do_symmetrical_brush_actions symm radial_count tiles).length)
          (hj : j < (do_symmetrical_brush_actions symm radial_count tiles).length),
        ((do_symmetrical_brush_actions symm radial_count tiles)[i]).mirror =
            ((do_symmetrical_brush_actions symm radial_count tiles)[j]).mirror →
          ((do_symmetrical_brush_actions symm radial_count tiles)[i]).radial = 0 →
          ((do_symmetrical_brush_actions symm radial_count tiles)[j]).radial ≠ 0 →
          i < j) := by
  have hpw := pairwise_actions symm radial_count tiles
  have hidx := List.pairwise_iff_getElem.mp hpw
  have shape : ∀ p ∈ do_symmetrical_brush_actions symm radial_count tiles,
      (p.axis = 0 ∧ p.radial = 0) ∨ (1 ≤ p.axis ∧ p.axis ≤ 3 ∧ 1 ≤ p.radial) := by
    intro p hp
    simp only [do_symmetrical_brush_actions, List.mem_flatMap] at hp
    obtain ⟨mm, _, hmem⟩ := hp
    exact (mem_symm_block_fields hmem).2
  refine ⟨?_, ?_, ?_⟩
  · intro i j hi hj hm ha hr ht0 htn
    by_contra hij
    rcases Nat.lt_or_ge j i with hji | hji
    · have := hidx j i hj hi hji
      rcases this with h | ⟨_, h | ⟨_, h | ⟨_, h⟩⟩⟩ <;> omega
    · have : i = j := by omega
      subst this
      exact htn ht0
  · intro m a r ⟨t, ht⟩
    have hz : (⟨m, a, r, 0⟩ : SymPass) ∈
        do_symmetrical_brush_actions symm radial_count tiles := zero_tile_mem ht
    rw [List.countP_eq_length_filter]
    have hpw2 : ((do_symmetrical_brush_actions symm radial_count tiles).filter
        (fun p => p.mirror == m && p.axis == a && p.radial == r && p.tile == 0)).Pairwise
          passLt :=
      List.Pairwise.sublist (List.filter_sublist _) hpw
    have hall : ∀ x ∈ (do_symmetrical_brush_actions symm radial_count tiles).filter
        (fun p => p.mirror == m && p.axis == a && p.radial == r && p.tile == 0),
        x = (⟨m, a, r, 0⟩ : SymPass) := by
      intro x hx
      have hpred := (List.mem_filter.mp hx).2
      obtain ⟨x1, x2, x3, x4⟩ := x
      simp only [Bool.and_eq_true, beq_iff_eq] at hpred
      obtain ⟨⟨⟨e1, e2⟩, e3⟩, e4⟩ := hpred
      simp_all
    have hle := length_le_one_of_pairwise_all_eq _ _ hpw2 hall
    have hmem : (⟨m, a, r, 0⟩ : SymPass) ∈
        (do_symmetrical_brush_actions symm radial_count tiles).filter
          (fun p => p.mirror == m && p.axis == a && p.radial == r && p.tile == 0) :=
      List.mem_filter.mpr ⟨hz, by simp⟩
    have hge := List.length_pos.mpr (List.ne_nil_of_mem hmem)
    omega
  · intro i j hi hj hm hr0 hrn
    have hsi := shape _ (List.getElem_mem hi)
    have hsj := shape _ (List.getElem_mem hj)
    by_contra hij
    rcases Nat.lt_or_ge j i with hji | hji
    · have := hidx j i hj hi hji
      rcases this with h | ⟨_, h | ⟨_, h | ⟨_, h⟩⟩⟩ <;>
        rcases hsi with ⟨hi1, hi2⟩ | ⟨hi1, hi2, hi3⟩ <;>
          rcases hsj with ⟨hj1, hj2⟩ | ⟨hj1, hj2, hj3⟩ <;> omega
    · have : i = j := by omega
      subst this
      exact hrn hr0

/-- Witness for `symmetry_pass_ordering`: with no symmetry, trivial
radial counts and one extra tile per pass, the single enumerated
combination contains its un-tiled pass exactly once. -/
theorem symmetry_pass_ordering_witness :
    (do_symmetrical_brush_actions 0 (fun _ => 1) (fun _ _ _ => 1)).countP
        (fun p => p.mirror == 0 && p.axis == 0 && p.radial == 0 && p.tile == 0) = 1 :=
  (symmetry_pass_ordering 0 (fun _ => 1) (fun _ _ _ => 1)).2.1 0 0 0 ⟨0, by decide⟩
